import Mathlib

/-!
Verification of the camera & interaction engine of an infinite pan/zoom
canvas. The definitions below are a shallow embedding, over exact real
numbers, of the TypeScript source:

* `src/features/canvas/utils/cameraUtils.ts` — constants, `clamp`,
  `viewportToWorld`, `worldToViewport`, `squaredDistance`;
* `useCanvasInteraction` — the wheel handler (pinch-zoom / scroll-pan),
  the pointer handlers (pan / click placement), and the focus-animation
  effect (per-frame lerp toward a target camera position).

JavaScript numbers are modelled as real numbers (the claims ask for exact
statements over the reals, with floating point only entering through a
tolerance). Division in the source never has a zero divisor on the paths
the theorems talk about; Lean's total division is commented where it
matters.
-/

noncomputable section

/-- `Camera` from `types/index.ts`: `(x, y)` is the world coordinate at the
viewport's top-left corner, `zoom` the scale factor. -/
structure Camera where
  x : ℝ
  y : ℝ
  zoom : ℝ

/-- A pair of coordinates; a screen point or a world point depending on use,
matching the source's anonymous `{ x, y }` records. -/
structure Point2 where
  x : ℝ
  y : ℝ

-- Constants from `cameraUtils.ts`.

def MIN_ZOOM : ℝ := 0.25

def MAX_ZOOM : ℝ := 3.0

def DRAG_THRESHOLD : ℝ := 3

def ZOOM_SENSITIVITY : ℝ := 0.005

/-- `clamp` from `cameraUtils.ts`: `Math.min(Math.max(value, min), max)`. -/
def clamp (value lo hi : ℝ) : ℝ :=
  min (max value lo) hi

/-- `viewportToWorld` from `cameraUtils.ts`. -/
def viewportToWorld (viewportX viewportY : ℝ) (camera : Camera) : Point2 :=
  ⟨camera.x + viewportX / camera.zoom, camera.y + viewportY / camera.zoom⟩

/-- `worldToViewport` from `cameraUtils.ts`. -/
def worldToViewport (worldX worldY : ℝ) (camera : Camera) : Point2 :=
  ⟨(worldX - camera.x) * camera.zoom, (worldY - camera.y) * camera.zoom⟩

/-- `squaredDistance` from `cameraUtils.ts`. -/
def squaredDistance (x1 y1 x2 y2 : ℝ) : ℝ :=
  (x2 - x1) * (x2 - x1) + (y2 - y1) * (y2 - y1)

/-- `CursorStyle` from `useCanvasInteraction`. -/
inductive CursorStyle where
  | default
  | grab
  | grabbing
  deriving DecidableEq

/-- A pointer event as the handlers read it: viewport coordinates (the
result of `getViewportCoordinates`) and the button number (0 = primary,
1 = middle, 2 = secondary). -/
structure PointerEvent where
  x : ℝ
  y : ℝ
  button : ℕ

/-- The mutable state of `useCanvasInteraction` touched by the pointer
handlers: the camera, the cursor affordance, and the gesture refs
`isPanning`, `panStart`, `pointerStart`, `spacePressed`. -/
structure InteractionState where
  camera : Camera
  cursor : CursorStyle
  isPanning : Bool
  panStart : Point2
  pointerStart : Point2
  spacePressed : Bool

/-- The hook's initial state: camera `{x: 0, y: 0, zoom: 1}`, default
cursor, not panning, both gesture refs at `{x: 0, y: 0}`, space up. -/
def initialState : InteractionState :=
  ⟨⟨0, 0, 1⟩, CursorStyle.default, false, ⟨0, 0⟩, ⟨0, 0⟩, false⟩

/-- `handlePointerDown` from `useCanvasInteraction`: always records the
event position in `pointerStart` and `panStart`; enters panning (capturing
the pointer, cursor `grabbing`) on the middle button or on space + primary
button. -/
def handlePointerDown (e : PointerEvent) (s : InteractionState) : InteractionState :=
  let s1 := { s with pointerStart := ⟨e.x, e.y⟩, panStart := ⟨e.x, e.y⟩ }
  if e.button = 1 ∨ (e.button = 0 ∧ s.spacePressed = true) then
    { s1 with isPanning := true, cursor := CursorStyle.grabbing }
  else
    s1

/-- `handlePointerMove` from `useCanvasInteraction`: a no-op unless
panning; while panning, moves the camera opposite the screen delta scaled
by `1 / zoom` and updates `panStart`. -/
def handlePointerMove (e : PointerEvent) (s : InteractionState) : InteractionState :=
  if s.isPanning = true then
    let dx := e.x - s.panStart.x
    let dy := e.y - s.panStart.y
    { s with
        camera := ⟨s.camera.x - dx / s.camera.zoom, s.camera.y - dy / s.camera.zoom,
          s.camera.zoom⟩,
        panStart := ⟨e.x, e.y⟩ }
  else
    s

/-- `handlePointerUp` from `useCanvasInteraction`: while panning, ends the
pan and restores the cursor. Otherwise compares the squared distance to the
recorded `pointerStart` against `DRAG_THRESHOLD²` and, for the primary
button, emits the placed world point (`addThreadAt` in the source); the
emitted click is returned as the second component. -/
def handlePointerUp (e : PointerEvent) (s : InteractionState) :
    InteractionState × Option Point2 :=
  if s.isPanning = true then
    ({ s with
        isPanning := false,
        cursor := if s.spacePressed = true then CursorStyle.grab else CursorStyle.default },
      none)
  else
    let distanceSquared := squaredDistance e.x e.y s.pointerStart.x s.pointerStart.y
    if distanceSquared < DRAG_THRESHOLD * DRAG_THRESHOLD ∧ e.button = 0 then
      (s, some (viewportToWorld e.x e.y s.camera))
    else
      (s, none)

/-- The bounding rectangle of the viewport element, as the focus-animation
effect reads it (`getBoundingClientRect`). -/
structure Rect where
  width : ℝ
  height : ℝ

def LERP_FACTOR : ℝ := 0.1

def DISTANCE_THRESHOLD : ℝ := 1

/-- The target camera position computed by the focus-animation effect:
the camera for which the focus world point sits at the viewport center,
using the given viewport rect and camera zoom
(`targetX - (rect.width / 2) / zoom`, likewise for y). -/
def targetCamera (focus : Point2) (rect : Rect) (zoom : ℝ) : Point2 :=
  ⟨focus.x - rect.width / 2 / zoom, focus.y - rect.height / 2 / zoom⟩

/-- State seen by one animation frame: the camera (`cameraRef.current`) and
whether the focus target is still set. `focusActive = false` models that
`clearFocusTarget()` ran and no further frame is scheduled. -/
structure AnimState where
  camera : Camera
  focusActive : Bool

/-- One `animate` frame from the focus-animation effect, given the
closure-captured target camera position: when the remaining distance is
below `DISTANCE_THRESHOLD` it snaps the camera to the target and clears the
focus target; otherwise it lerps `LERP_FACTOR` of the way there. A frame
after clearing is a no-op (no frame is scheduled once the target is
cleared). -/
def animate (target : Point2) (s : AnimState) : AnimState :=
  if s.focusActive = false then s
  else
    let dx := target.x - s.camera.x
    let dy := target.y - s.camera.y
    let distance := Real.sqrt (dx * dx + dy * dy)
    if distance < DISTANCE_THRESHOLD then
      ⟨⟨target.x, target.y, s.camera.zoom⟩, false⟩
    else
      ⟨⟨s.camera.x + dx * LERP_FACTOR, s.camera.y + dy * LERP_FACTOR, s.camera.zoom⟩, true⟩

/-- One frame as the effect actually runs it: the target camera position is
the one computed ONCE at effect setup, from the rect and the camera zoom
current at that moment (`setupZoom`), not from the state at the frame. -/
def focusEffectStep (focus : Point2) (rect : Rect) (setupZoom : ℝ) (s : AnimState) :
    AnimState :=
  animate (targetCamera focus rect setupZoom) s

/-- Modelled from the spec: one frame as the claim describes it — "on every
animation frame the camera position that would center the target world
point is computed from the viewport dimensions and camera state current at
that frame" — i.e. the target is recomputed from the zoom in the frame's
own state. For comparison with `focusEffectStep`. -/
def focusStepRecomputed (focus : Point2) (rect : Rect) (s : AnimState) : AnimState :=
  animate (targetCamera focus rect s.camera.zoom) s

/-- Iterating animation frames toward a fixed target camera position from
a starting camera with the focus target set. -/
def animRun (t : Point2) (c0 : Camera) (n : ℕ) : AnimState :=
  (animate t)^[n] ⟨c0, true⟩

/-- The focus animation as a whole: iterate the per-frame step from a
starting camera, with the target fixed at setup from the starting camera's
zoom. -/
def focusRun (focus : Point2) (rect : Rect) (c0 : Camera) (n : ℕ) : AnimState :=
  animRun (targetCamera focus rect c0.zoom) c0 n

/-- A wheel event as the handler reads it: scroll deltas and the ctrl-key
flag that distinguishes pinch-zoom from two-finger pan. -/
structure WheelEvent where
  deltaX : ℝ
  deltaY : ℝ
  ctrlKey : Bool

/-- `handleWheel` from `useCanvasInteraction`, acting on the camera.
`sx`/`sy` are the viewport coordinates of the event (the result of
`getViewportCoordinates`). With `ctrlKey` it zooms at the cursor, using
`exp(-deltaY * ZOOM_SENSITIVITY)` as the zoom factor and clamping; without
it it pans by the scroll deltas scaled by zoom. -/
def handleWheel (sx sy : ℝ) (e : WheelEvent) (cam : Camera) : Camera :=
  if e.ctrlKey = true then
    let before := viewportToWorld sx sy cam
    let factor := Real.exp (-e.deltaY * ZOOM_SENSITIVITY)
    let newZoom := clamp (cam.zoom * factor) MIN_ZOOM MAX_ZOOM
    ⟨before.x - sx / newZoom, before.y - sy / newZoom, newZoom⟩
  else
    ⟨cam.x + e.deltaX / cam.zoom, cam.y + e.deltaY / cam.zoom, cam.zoom⟩

/-- One canvas input operation: a wheel event (zoom with ctrl, pan
without), a pointer event, or one animator frame toward a (setup-computed)
target camera position. -/
inductive CanvasOp where
  | wheel (sx sy : ℝ) (e : WheelEvent)
  | pointerDown (e : PointerEvent)
  | pointerMove (e : PointerEvent)
  | pointerUp (e : PointerEvent)
  | animTick (target : Point2)

/-- Apply one operation to the interaction state, dispatching to the
corresponding handler from the source; the click possibly emitted by a
pointer-up goes to the external store and does not affect this state. -/
def applyOp (s : InteractionState) (op : CanvasOp) : InteractionState :=
  match op with
  | CanvasOp.wheel sx sy e => { s with camera := handleWheel sx sy e s.camera }
  | CanvasOp.pointerDown e => handlePointerDown e s
  | CanvasOp.pointerMove e => handlePointerMove e s
  | CanvasOp.pointerUp e => (handlePointerUp e s).1
  | CanvasOp.animTick t => { s with camera := (animate t ⟨s.camera, true⟩).camera }

/-- The camera-zoom invariant: `MIN_ZOOM ≤ zoom ≤ MAX_ZOOM`. -/
def ZoomInvariant (s : InteractionState) : Prop :=
  MIN_ZOOM ≤ s.camera.zoom ∧ s.camera.zoom ≤ MAX_ZOOM

/-- C2: Round trip of the coordinate transform — for every camera with
positive zoom and every screen point, mapping to world coordinates and back
returns the original screen point, exactly over the reals. -/
theorem worldToViewport_viewportToWorld_round_trip
    (cam : Camera) (hz : 0 < cam.zoom) (px py : ℝ) :
    worldToViewport (viewportToWorld px py cam).x (viewportToWorld px py cam).y cam
      = ⟨px, py⟩ := by
  have hz' : cam.zoom ≠ 0 := ne_of_gt hz
  simp only [worldToViewport, viewportToWorld, Point2.mk.injEq]
  constructor <;> (field_simp; ring)

/-- The wheel-zoom camera keeps the world point under the anchor fixed:
its x component is `before.x - sx / newZoom`, so adding back `sx / newZoom`
recovers `before.x`, whatever `newZoom` is. Shared by the zoom-invariance
theorems below. -/
theorem handleWheel_zoom_world_anchor (sx sy : ℝ) (e : WheelEvent) (cam : Camera)
    (hc : e.ctrlKey = true) :
    viewportToWorld sx sy (handleWheel sx sy e cam) = viewportToWorld sx sy cam := by
  simp only [handleWheel, hc, if_pos, viewportToWorld, Point2.mk.injEq]
  constructor <;> ring

/-- C1: Zoom-at-cursor invariance — for a camera whose zoom is strictly
inside `[MIN_ZOOM, MAX_ZOOM]` and stays strictly inside after applying the
exponential zoom factor (so the clamp does not bind), the wheel-zoom
operation preserves the world point under the anchor exactly:
`screenToWorld(anchor, newCamera) = screenToWorld(anchor, camera)`. -/
theorem zoomAt_cursor_invariance (cam : Camera) (sx sy : ℝ) (e : WheelEvent)
    (hc : e.ctrlKey = true)
    (h1 : MIN_ZOOM < cam.zoom) (h2 : cam.zoom < MAX_ZOOM)
    (h3 : MIN_ZOOM < cam.zoom * Real.exp (-e.deltaY * ZOOM_SENSITIVITY))
    (h4 : cam.zoom * Real.exp (-e.deltaY * ZOOM_SENSITIVITY) < MAX_ZOOM) :
    viewportToWorld sx sy (handleWheel sx sy e cam) = viewportToWorld sx sy cam :=
  handleWheel_zoom_world_anchor sx sy e cam hc

theorem zoomAt_cursor_invariance_witness :
    viewportToWorld 7 11 (handleWheel 7 11 ⟨0, 0, true⟩ ⟨0, 0, 1⟩)
      = viewportToWorld 7 11 ⟨0, 0, 1⟩ :=
  zoomAt_cursor_invariance ⟨0, 0, 1⟩ 7 11 ⟨0, 0, true⟩ rfl
    (by norm_num [MIN_ZOOM]) (by norm_num [MAX_ZOOM])
    (by norm_num [MIN_ZOOM, ZOOM_SENSITIVITY, Real.exp_zero])
    (by norm_num [MAX_ZOOM, ZOOM_SENSITIVITY, Real.exp_zero])

/-- C10: Zoom-at-cursor invariance survives clamping — for any camera with
zoom in `[MIN_ZOOM, MAX_ZOOM]`, any anchor and any delta (including ones
that saturate the clamp), the wheel-zoom operation preserves the world
point under the anchor exactly, because the anchor correction divides by
the already-clamped zoom; and when the clamped zoom equals the old zoom,
the whole camera is unchanged. -/
theorem zoomAt_cursor_invariance_clamped (cam : Camera) (sx sy : ℝ) (e : WheelEvent)
    (hc : e.ctrlKey = true)
    (h1 : MIN_ZOOM ≤ cam.zoom) (h2 : cam.zoom ≤ MAX_ZOOM) :
    viewportToWorld sx sy (handleWheel sx sy e cam) = viewportToWorld sx sy cam
    ∧ (clamp (cam.zoom * Real.exp (-e.deltaY * ZOOM_SENSITIVITY)) MIN_ZOOM MAX_ZOOM
          = cam.zoom
        → handleWheel sx sy e cam = cam) := by
  refine ⟨handleWheel_zoom_world_anchor sx sy e cam hc, fun hsat => ?_⟩
  simp only [handleWheel, hc, if_pos, viewportToWorld, hsat]
  cases cam
  simp only [Camera.mk.injEq]
  refine ⟨by ring, by ring, trivial⟩

theorem zoomAt_cursor_invariance_clamped_witness :
    viewportToWorld 7 11 (handleWheel 7 11 ⟨0, 100, true⟩ ⟨0, 0, 1⟩)
      = viewportToWorld 7 11 ⟨0, 0, 1⟩
    ∧ (clamp ((1 : ℝ) * Real.exp (-(100 : ℝ) * ZOOM_SENSITIVITY)) MIN_ZOOM MAX_ZOOM
          = (1 : ℝ)
        → handleWheel 7 11 ⟨0, 100, true⟩ ⟨0, 0, 1⟩ = ⟨0, 0, 1⟩) :=
  zoomAt_cursor_invariance_clamped ⟨0, 0, 1⟩ 7 11 ⟨0, 100, true⟩ rfl
    (by norm_num [MIN_ZOOM]) (by norm_num [MAX_ZOOM])

/-- C7: Drag-pan arithmetic and direction — while panning, a pointer move
updates the camera to `x - dx/zoom`, `y - dy/zoom` with zoom unchanged and
records the new pan anchor; concretely a drag from `(100,100)` to
`(150,130)` at camera `{0,0,1}` yields `{-50,-30,1}`, and a `(50,30)` drag
at zoom 2 yields a camera delta of `{-25,-15}`. -/
theorem drag_pan_arithmetic (s : InteractionState) (e : PointerEvent)
    (h : s.isPanning = true) :
    (handlePointerMove e s).camera =
        ⟨s.camera.x - (e.x - s.panStart.x) / s.camera.zoom,
         s.camera.y - (e.y - s.panStart.y) / s.camera.zoom, s.camera.zoom⟩
    ∧ (handlePointerMove e s).panStart = ⟨e.x, e.y⟩
    ∧ (handlePointerMove ⟨150, 130, 0⟩
          ⟨⟨0, 0, 1⟩, CursorStyle.grabbing, true, ⟨100, 100⟩, ⟨100, 100⟩, false⟩).camera
        = ⟨-50, -30, 1⟩
    ∧ (handlePointerMove ⟨50, 30, 0⟩
          ⟨⟨0, 0, 2⟩, CursorStyle.grabbing, true, ⟨0, 0⟩, ⟨0, 0⟩, false⟩).camera
        = ⟨-25, -15, 2⟩ := by
  refine ⟨?_, ?_, ?_, ?_⟩ <;>
    simp only [handlePointerMove, h, if_pos, Camera.mk.injEq, Point2.mk.injEq] <;>
    norm_num

theorem drag_pan_arithmetic_witness :
    (handlePointerMove ⟨150, 130, 0⟩
        ⟨⟨0, 0, 1⟩, CursorStyle.grabbing, true, ⟨100, 100⟩, ⟨100, 100⟩, false⟩).camera
      = ⟨-50, -30, 1⟩ :=
  (drag_pan_arithmetic
      ⟨⟨0, 0, 1⟩, CursorStyle.grabbing, true, ⟨100, 100⟩, ⟨100, 100⟩, false⟩
      ⟨150, 130, 0⟩ rfl).2.2.1

/-- C4: Drag threshold click classification — from an idle state, after a
pointer-down that does not start a pan and a primary-button pointer-up, a
click is emitted at `viewportToWorld` of the release point exactly when the
squared distance between the two screen points is below `DRAG_THRESHOLD²`;
the squared test decides identically to the Euclidean test against the
threshold; concretely, down `(100,200)` / up `(100,200)` at the identity
camera emits a click at world `(100,200)`, and up at `(110,200)` emits
none. -/
theorem drag_threshold_click_classification (s : InteractionState) (d u : PointerEvent)
    (hIdle : s.isPanning = false)
    (hNoPan : ¬ (d.button = 1 ∨ (d.button = 0 ∧ s.spacePressed = true)))
    (hBtn : u.button = 0) :
    (handlePointerUp u (handlePointerDown d s)).2
        = (if squaredDistance u.x u.y d.x d.y < DRAG_THRESHOLD * DRAG_THRESHOLD then
            some (viewportToWorld u.x u.y s.camera)
          else none)
    ∧ (squaredDistance u.x u.y d.x d.y < DRAG_THRESHOLD * DRAG_THRESHOLD
        ↔ Real.sqrt (squaredDistance u.x u.y d.x d.y) < DRAG_THRESHOLD)
    ∧ (handlePointerUp ⟨100, 200, 0⟩ (handlePointerDown ⟨100, 200, 0⟩ initialState)).2
        = some ⟨100, 200⟩
    ∧ (handlePointerUp ⟨110, 200, 0⟩ (handlePointerDown ⟨100, 200, 0⟩ initialState)).2
        = none := by
  refine ⟨?_, ?_, ?_, ?_⟩
  · by_cases hlt : squaredDistance u.x u.y d.x d.y < DRAG_THRESHOLD * DRAG_THRESHOLD <;>
      simp [handlePointerUp, handlePointerDown, hNoPan, hIdle, hBtn, hlt]
  · rw [show DRAG_THRESHOLD * DRAG_THRESHOLD = DRAG_THRESHOLD ^ 2 from by ring]
    exact (Real.sqrt_lt' (by norm_num [DRAG_THRESHOLD])).symm
  · simp only [handlePointerUp, handlePointerDown, initialState]
    norm_num [squaredDistance, DRAG_THRESHOLD, viewportToWorld]
  · simp only [handlePointerUp, handlePointerDown, initialState]
    norm_num [squaredDistance, DRAG_THRESHOLD]

theorem drag_threshold_click_classification_witness :
    (handlePointerUp ⟨100, 200, 0⟩ (handlePointerDown ⟨100, 200, 0⟩ initialState)).2
      = some ⟨100, 200⟩ :=
  (drag_threshold_click_classification initialState ⟨100, 200, 0⟩ ⟨100, 200, 0⟩
      rfl (by decide) rfl).2.2.1

/-- C8 counterexample: a pointer-up with no preceding pointer-down, at the
hook's initial state, DOES emit a click — the IDLE branch compares against
the stale `pointerStart` ref (initially `(0,0)`), so a primary-button up at
`(0,0)` places a point at world `(0,0)`, refuting the claim that an orphan
pointer-up never emits a click. -/
theorem orphan_pointer_up_click_counterexample :
    (handlePointerUp ⟨0, 0, 0⟩ initialState).2 = some ⟨0, 0⟩ := by
  simp only [handlePointerUp, initialState]
  norm_num [squaredDistance, DRAG_THRESHOLD, viewportToWorld]

/-- C8 amended: an orphan pointer-up takes the IDLE path (the code cannot
tell it apart from a matched one): it raises no exception, leaves the whole
interaction state — camera, cursor and gesture refs — unchanged, and emits
a click exactly when the release point is within `DRAG_THRESHOLD` of the
last recorded pointer-down position (initially `(0,0)`) and the button is
primary; "no click" is only guaranteed outside that threshold. -/
theorem orphan_pointer_up_idle_path (e : PointerEvent) (s : InteractionState)
    (h : s.isPanning = false) :
    (handlePointerUp e s).1 = s
    ∧ ((handlePointerUp e s).2
        = if squaredDistance e.x e.y s.pointerStart.x s.pointerStart.y
              < DRAG_THRESHOLD * DRAG_THRESHOLD ∧ e.button = 0 then
            some (viewportToWorld e.x e.y s.camera)
          else none) := by
  constructor <;>
    by_cases hc : squaredDistance e.x e.y s.pointerStart.x s.pointerStart.y
        < DRAG_THRESHOLD * DRAG_THRESHOLD ∧ e.button = 0 <;>
      simp [handlePointerUp, h, hc]

theorem orphan_pointer_up_idle_path_witness :
    (handlePointerUp ⟨5, 5, 0⟩ initialState).1 = initialState :=
  (orphan_pointer_up_idle_path ⟨5, 5, 0⟩ initialState rfl).1

theorem worldToViewport_viewportToWorld_round_trip_witness :
    worldToViewport (viewportToWorld 10 20 ⟨3, 4, 2⟩).x
        (viewportToWorld 10 20 ⟨3, 4, 2⟩).y ⟨3, 4, 2⟩ = ⟨10, 20⟩ :=
  worldToViewport_viewportToWorld_round_trip ⟨3, 4, 2⟩ (by norm_num) 10 20

-- Helper lemmas about a single animation frame.

theorem animate_inactive (t : Point2) (s : AnimState) (h : s.focusActive = false) :
    animate t s = s := by
  simp [animate, h]

theorem animate_snap (t : Point2) (s : AnimState) (ha : s.focusActive = true)
    (hd : Real.sqrt ((t.x - s.camera.x) * (t.x - s.camera.x)
        + (t.y - s.camera.y) * (t.y - s.camera.y)) < DISTANCE_THRESHOLD) :
    animate t s = ⟨⟨t.x, t.y, s.camera.zoom⟩, false⟩ := by
  simp [animate, ha, hd]

theorem animate_lerp (t : Point2) (s : AnimState) (ha : s.focusActive = true)
    (hd : ¬ Real.sqrt ((t.x - s.camera.x) * (t.x - s.camera.x)
        + (t.y - s.camera.y) * (t.y - s.camera.y)) < DISTANCE_THRESHOLD) :
    animate t s =
      ⟨⟨s.camera.x + (t.x - s.camera.x) * LERP_FACTOR,
        s.camera.y + (t.y - s.camera.y) * LERP_FACTOR, s.camera.zoom⟩, true⟩ := by
  simp [animate, ha, hd]

theorem animate_zoom (t : Point2) (s : AnimState) :
    (animate t s).camera.zoom = s.camera.zoom := by
  simp only [animate]
  split_ifs <;> rfl

theorem animate_active_of (t : Point2) (s : AnimState)
    (h : (animate t s).focusActive = true) : s.focusActive = true := by
  by_cases hs : s.focusActive = false
  · rw [animate_inactive t s hs] at h
    rw [h] at hs
    exact absurd hs (by simp)
  · revert hs
    cases s.focusActive <;> simp

/-- The square root of a quantity at least 1 is not below the animator's
distance threshold. -/
theorem sqrt_not_lt_threshold {a : ℝ} (h : 1 ≤ a) :
    ¬ Real.sqrt a < DISTANCE_THRESHOLD := by
  have h1 : Real.sqrt 1 ≤ Real.sqrt a := Real.sqrt_le_sqrt h
  rw [Real.sqrt_one] at h1
  simp only [DISTANCE_THRESHOLD]
  exact not_lt.mpr h1

/-- C5 counterexample: with focus `(500,500)`, viewport `800×600`, setup
zoom 1 and a current camera `{0,0,2}` (zoom changed mid-animation), the
frame the code runs lerps toward the setup-time target `(100,200)` (giving
x = 10), while per-frame recomputation as the claim describes would lerp
toward `(300,350)` (giving x = 30) — the two frames disagree, so the target
is NOT recomputed from the camera state current at the frame. -/
theorem focus_target_not_recomputed_counterexample :
    (focusEffectStep ⟨500, 500⟩ ⟨800, 600⟩ 1 ⟨⟨0, 0, 2⟩, true⟩).camera.x = 10
    ∧ (focusStepRecomputed ⟨500, 500⟩ ⟨800, 600⟩ ⟨⟨0, 0, 2⟩, true⟩).camera.x = 30
    ∧ focusEffectStep ⟨500, 500⟩ ⟨800, 600⟩ 1 ⟨⟨0, 0, 2⟩, true⟩
        ≠ focusStepRecomputed ⟨500, 500⟩ ⟨800, 600⟩ ⟨⟨0, 0, 2⟩, true⟩ := by
  have ht1 : targetCamera ⟨500, 500⟩ ⟨800, 600⟩ 1 = ⟨100, 200⟩ := by
    simp only [targetCamera, Point2.mk.injEq]
    norm_num
  have ht2 : targetCamera ⟨500, 500⟩ ⟨800, 600⟩ (2 : ℝ) = ⟨300, 350⟩ := by
    simp only [targetCamera, Point2.mk.injEq]
    norm_num
  have h1 : (focusEffectStep ⟨500, 500⟩ ⟨800, 600⟩ 1 ⟨⟨0, 0, 2⟩, true⟩).camera.x = 10 := by
    rw [focusEffectStep, ht1,
      animate_lerp _ _ rfl (sqrt_not_lt_threshold (by norm_num))]
    norm_num [LERP_FACTOR]
  have h2 : (focusStepRecomputed ⟨500, 500⟩ ⟨800, 600⟩ ⟨⟨0, 0, 2⟩, true⟩).camera.x = 30 := by
    rw [focusStepRecomputed]
    rw [show (⟨⟨0, 0, 2⟩, true⟩ : AnimState).camera.zoom = (2 : ℝ) from rfl, ht2,
      animate_lerp _ _ rfl (sqrt_not_lt_threshold (by norm_num))]
    norm_num [LERP_FACTOR]
  refine ⟨h1, h2, fun heq => ?_⟩
  have := congrArg (fun st => st.camera.x) heq
  simp only at this
  rw [h1, h2] at this
  norm_num at this

/-- C5 amended: the target camera position is computed once, when the focus
effect starts, from the viewport rect and the camera zoom current at that
moment; every later frame snaps or lerps toward that fixed target, so the
frame's outcome (position and clearing) is independent of the camera zoom
current at the frame — zoom or viewport changes during the animation do not
change the per-frame target. -/
theorem focus_target_fixed_at_setup (focus : Point2) (rect : Rect) (setupZoom : ℝ)
    (p : Point2) (z1 z2 : ℝ) (a : Bool) :
    ((focusEffectStep focus rect setupZoom ⟨⟨p.x, p.y, z1⟩, a⟩).camera.x
        = (focusEffectStep focus rect setupZoom ⟨⟨p.x, p.y, z2⟩, a⟩).camera.x)
    ∧ ((focusEffectStep focus rect setupZoom ⟨⟨p.x, p.y, z1⟩, a⟩).camera.y
        = (focusEffectStep focus rect setupZoom ⟨⟨p.x, p.y, z2⟩, a⟩).camera.y)
    ∧ ((focusEffectStep focus rect setupZoom ⟨⟨p.x, p.y, z1⟩, a⟩).focusActive
        = (focusEffectStep focus rect setupZoom ⟨⟨p.x, p.y, z2⟩, a⟩).focusActive) := by
  cases a <;>
    · simp only [focusEffectStep, animate]
      split_ifs <;> simp_all

theorem animRun_succ (t : Point2) (c0 : Camera) (n : ℕ) :
    animRun t c0 (n + 1) = animate t (animRun t c0 n) := by
  simp [animRun, Function.iterate_succ_apply']

theorem animRun_zero (t : Point2) (c0 : Camera) :
    animRun t c0 0 = ⟨c0, true⟩ := rfl

theorem animRun_zoom (t : Point2) (c0 : Camera) (n : ℕ) :
    (animRun t c0 n).camera.zoom = c0.zoom := by
  induction n with
  | zero => rfl
  | succ n ih => rw [animRun_succ, animate_zoom]; exact ih

/-- Scaling both coordinates of a displacement by a common nonnegative
factor scales the computed distance by that factor. -/
theorem sqrt_scale (c a b : ℝ) (hc : 0 ≤ c) :
    Real.sqrt ((c * a) * (c * a) + (c * b) * (c * b))
      = c * Real.sqrt (a * a + b * b) := by
  have h : (c * a) * (c * a) + (c * b) * (c * b) = (c * c) * (a * a + b * b) := by ring
  rw [h, Real.sqrt_mul (mul_self_nonneg c), Real.sqrt_mul_self hc]

/-- While the focus target is still set, the displacement from the camera
to the target shrinks geometrically, by the factor `1 - LERP_FACTOR = 0.9`
per frame. -/
theorem animRun_displacement (t : Point2) (c0 : Camera) (n : ℕ)
    (hact : (animRun t c0 n).focusActive = true) :
    t.x - (animRun t c0 n).camera.x = 0.9 ^ n * (t.x - c0.x)
    ∧ t.y - (animRun t c0 n).camera.y = 0.9 ^ n * (t.y - c0.y) := by
  induction n with
  | zero => simp [animRun_zero]
  | succ n ih =>
    have hactn : (animRun t c0 n).focusActive = true := by
      rw [animRun_succ] at hact
      exact animate_active_of t _ hact
    obtain ⟨ihx, ihy⟩ := ih hactn
    by_cases hd : Real.sqrt
        ((t.x - (animRun t c0 n).camera.x) * (t.x - (animRun t c0 n).camera.x)
          + (t.y - (animRun t c0 n).camera.y) * (t.y - (animRun t c0 n).camera.y))
        < DISTANCE_THRESHOLD
    · exfalso
      rw [animRun_succ, animate_snap t _ hactn hd] at hact
      simp at hact
    · rw [animRun_succ, animate_lerp t _ hactn hd]
      constructor
      · simp only [LERP_FACTOR, pow_succ]
        linear_combination (0.9 : ℝ) * ihx
      · simp only [LERP_FACTOR, pow_succ]
        linear_combination (0.9 : ℝ) * ihy

/-- Iterating the animation frame from an active state converges: there is
a frame index `N ≥ 1` such that the focus target is set on every frame
before `N` and, from frame `N` on, the camera sits exactly at the target
(zoom untouched) with the focus target cleared — so the target is cleared
exactly once, at the transition into frame `N`. -/
theorem animRun_converges (t : Point2) (c0 : Camera) :
    ∃ N : ℕ, 1 ≤ N
      ∧ (∀ n, n < N → (animRun t c0 n).focusActive = true)
      ∧ (∀ n, N ≤ n → animRun t c0 n = ⟨⟨t.x, t.y, c0.zoom⟩, false⟩) := by
  classical
  obtain ⟨n0, hn0⟩ : ∃ n : ℕ, (0.9 : ℝ) ^ n
      * Real.sqrt ((t.x - c0.x) * (t.x - c0.x) + (t.y - c0.y) * (t.y - c0.y)) < 1 := by
    have hDnn : 0 ≤ Real.sqrt ((t.x - c0.x) * (t.x - c0.x) + (t.y - c0.y) * (t.y - c0.y)) :=
      Real.sqrt_nonneg _
    obtain ⟨n, hn⟩ := exists_pow_lt_of_lt_one
      (show (0 : ℝ) < 1
          / (Real.sqrt ((t.x - c0.x) * (t.x - c0.x) + (t.y - c0.y) * (t.y - c0.y)) + 1)
        from by positivity)
      (show (0.9 : ℝ) < 1 from by norm_num)
    refine ⟨n, ?_⟩
    have h1 := mul_le_mul_of_nonneg_left
      (show Real.sqrt ((t.x - c0.x) * (t.x - c0.x) + (t.y - c0.y) * (t.y - c0.y))
          ≤ Real.sqrt ((t.x - c0.x) * (t.x - c0.x) + (t.y - c0.y) * (t.y - c0.y)) + 1
        from by linarith)
      (pow_nonneg (show (0 : ℝ) ≤ 0.9 from by norm_num) n)
    have h2 := mul_lt_mul_of_pos_right hn
      (show (0 : ℝ)
          < Real.sqrt ((t.x - c0.x) * (t.x - c0.x) + (t.y - c0.y) * (t.y - c0.y)) + 1
        from by linarith)
    have h3 : 1 / (Real.sqrt ((t.x - c0.x) * (t.x - c0.x) + (t.y - c0.y) * (t.y - c0.y)) + 1)
        * (Real.sqrt ((t.x - c0.x) * (t.x - c0.x) + (t.y - c0.y) * (t.y - c0.y)) + 1)
        = 1 := by
      field_simp
    linarith
  have hex : ∃ m : ℕ, (animRun t c0 m).focusActive = false := by
    by_cases hact : (animRun t c0 n0).focusActive = true
    · refine ⟨n0 + 1, ?_⟩
      obtain ⟨hx, hy⟩ := animRun_displacement t c0 n0 hact
      have hdist : Real.sqrt
          ((t.x - (animRun t c0 n0).camera.x) * (t.x - (animRun t c0 n0).camera.x)
            + (t.y - (animRun t c0 n0).camera.y) * (t.y - (animRun t c0 n0).camera.y))
          < DISTANCE_THRESHOLD := by
        rw [hx, hy, sqrt_scale _ _ _ (pow_nonneg (show (0 : ℝ) ≤ 0.9 from by norm_num) n0)]
        simpa [DISTANCE_THRESHOLD] using hn0
      rw [animRun_succ, animate_snap t _ hact hdist]
    · refine ⟨n0, ?_⟩
      revert hact
      cases (animRun t c0 n0).focusActive <;> simp
  obtain ⟨N, hNfalse, hNmin⟩ : ∃ N : ℕ, (animRun t c0 N).focusActive = false
      ∧ ∀ m, m < N → ¬ ((animRun t c0 m).focusActive = false) :=
    ⟨Nat.find hex, Nat.find_spec hex, fun m hm => Nat.find_min hex hm⟩
  have hactive : ∀ n, n < N → (animRun t c0 n).focusActive = true := by
    intro n hn
    have h := hNmin n hn
    revert h
    cases (animRun t c0 n).focusActive <;> simp
  have hN1 : 1 ≤ N := by
    rcases Nat.eq_zero_or_pos N with h0 | h1
    · exfalso
      rw [h0, animRun_zero] at hNfalse
      simp at hNfalse
    · exact h1
  obtain ⟨M, rfl⟩ : ∃ M, N = M + 1 := ⟨N - 1, by omega⟩
  have hactM : (animRun t c0 M).focusActive = true := hactive M (by omega)
  have hsnap : animRun t c0 (M + 1) = ⟨⟨t.x, t.y, c0.zoom⟩, false⟩ := by
    by_cases hd : Real.sqrt
        ((t.x - (animRun t c0 M).camera.x) * (t.x - (animRun t c0 M).camera.x)
          + (t.y - (animRun t c0 M).camera.y) * (t.y - (animRun t c0 M).camera.y))
        < DISTANCE_THRESHOLD
    · rw [animRun_succ, animate_snap t _ hactM hd, animRun_zoom]
    · exfalso
      rw [animRun_succ, animate_lerp t _ hactM hd] at hNfalse
      simp at hNfalse
  have hconst : ∀ k, animRun t c0 (M + 1 + k) = ⟨⟨t.x, t.y, c0.zoom⟩, false⟩ := by
    intro k
    induction k with
    | zero => simpa using hsnap
    | succ k ih =>
      have hk : M + 1 + (k + 1) = (M + 1 + k) + 1 := by omega
      rw [hk, animRun_succ, ih]
      exact animate_inactive _ _ rfl
  refine ⟨M + 1, by omega, hactive, ?_⟩
  intro n hn
  have hk : n = M + 1 + (n - (M + 1)) := by omega
  rw [hk]
  exact hconst _

/-- C6: Animator convergence and single clearing — for any focus target and
positive viewport dimensions, iterating the animator tick from any starting
camera reaches, after finitely many ticks, the camera position that centers
the target (so it differs from it by less than one unit), with zoom
untouched; the focus target is set on every tick before that point and
cleared from it on — i.e. cleared exactly once over the run. -/
theorem animator_convergence (focus : Point2) (rect : Rect) (c0 : Camera)
    (hw : 0 < rect.width) (hh : 0 < rect.height) :
    ∃ N : ℕ, 1 ≤ N
      ∧ (∀ n, n < N → (focusRun focus rect c0 n).focusActive = true)
      ∧ (∀ n, N ≤ n → focusRun focus rect c0 n
          = ⟨⟨(targetCamera focus rect c0.zoom).x, (targetCamera focus rect c0.zoom).y,
              c0.zoom⟩, false⟩) := by
  simpa [focusRun] using animRun_converges (targetCamera focus rect c0.zoom) c0

theorem animator_convergence_witness :
    ∃ N : ℕ, 1 ≤ N
      ∧ (∀ n, n < N → (focusRun ⟨500, 500⟩ ⟨800, 600⟩ ⟨0, 0, 1⟩ n).focusActive = true)
      ∧ (∀ n, N ≤ n → focusRun ⟨500, 500⟩ ⟨800, 600⟩ ⟨0, 0, 1⟩ n
          = ⟨⟨(targetCamera ⟨500, 500⟩ ⟨800, 600⟩ (Camera.mk 0 0 1).zoom).x,
              (targetCamera ⟨500, 500⟩ ⟨800, 600⟩ (Camera.mk 0 0 1).zoom).y,
              (Camera.mk 0 0 1).zoom⟩, false⟩) :=
  animator_convergence ⟨500, 500⟩ ⟨800, 600⟩ ⟨0, 0, 1⟩ (by norm_num) (by norm_num)

/-- `clamp` lands in `[lo, hi]` whenever `lo ≤ hi`, whatever the input. -/
theorem clamp_mem (v lo hi : ℝ) (h : lo ≤ hi) :
    lo ≤ clamp v lo hi ∧ clamp v lo hi ≤ hi :=
  ⟨le_min (le_max_right v lo) h, min_le_right _ _⟩

/-- Every single operation preserves the zoom invariant: only the
ctrl-wheel branch writes a new zoom, and it writes a clamped one. -/
theorem applyOp_zoom_invariant (s : InteractionState) (op : CanvasOp)
    (h : ZoomInvariant s) : ZoomInvariant (applyOp s op) := by
  cases op with
  | wheel sx sy e =>
    by_cases hc : e.ctrlKey = true
    · simp only [ZoomInvariant, applyOp, handleWheel, hc, if_pos]
      exact clamp_mem _ _ _ (by norm_num [MIN_ZOOM, MAX_ZOOM])
    · simp only [ZoomInvariant, applyOp, handleWheel, hc, if_neg]
      exact h
  | pointerDown e =>
    simp only [ZoomInvariant, applyOp, handlePointerDown]
    split_ifs <;> exact h
  | pointerMove e =>
    simp only [ZoomInvariant, applyOp, handlePointerMove]
    split_ifs <;> exact h
  | pointerUp e =>
    simp only [ZoomInvariant, applyOp, handlePointerUp]
    split_ifs <;> exact h
  | animTick t =>
    simp only [ZoomInvariant, applyOp]
    rw [animate_zoom]
    exact h

/-- C3: Zoom-bound invariant — the initial camera satisfies
`MIN_ZOOM ≤ zoom ≤ MAX_ZOOM`; every wheel, pointer or animator operation
preserves the invariant; hence after any finite sequence of operations
from a state satisfying it, the zoom is still within `[0.25, 3.0]`. -/
theorem zoom_bound_invariant :
    ZoomInvariant initialState
    ∧ (∀ (s : InteractionState) (op : CanvasOp),
        ZoomInvariant s → ZoomInvariant (applyOp s op))
    ∧ (∀ (ops : List CanvasOp) (s : InteractionState),
        ZoomInvariant s → ZoomInvariant (List.foldl applyOp s ops)) := by
  refine ⟨⟨by norm_num [initialState, MIN_ZOOM], by norm_num [initialState, MAX_ZOOM]⟩,
    applyOp_zoom_invariant, ?_⟩
  intro ops
  induction ops with
  | nil => intro s h; exact h
  | cons op ops ih =>
    intro s h
    rw [List.foldl_cons]
    exact ih _ (applyOp_zoom_invariant s op h)

theorem zoom_bound_invariant_witness :
    ZoomInvariant (List.foldl applyOp initialState
      [CanvasOp.wheel 10 10 ⟨0, 500, true⟩, CanvasOp.pointerDown ⟨3, 4, 1⟩,
        CanvasOp.pointerMove ⟨9, 9, 1⟩, CanvasOp.animTick ⟨70, 80⟩,
        CanvasOp.pointerUp ⟨9, 9, 1⟩, CanvasOp.wheel 0 0 ⟨5, 7, false⟩]) :=
  zoom_bound_invariant.2.2 _ initialState
    ⟨by norm_num [initialState, MIN_ZOOM], by norm_num [initialState, MAX_ZOOM]⟩

/-- C9 counterexample: with a zero-size viewport rect, a focus-animation
frame is NOT a no-op — for focus `(500,500)` from camera `{0,0,1}` the
target degenerates to `(500,500)` itself and the frame lerps the camera to
`(50,50)`, mutating it, refuting the claim that the tick skips gracefully
without moving the camera. -/
theorem degenerate_viewport_tick_counterexample :
    (focusEffectStep ⟨500, 500⟩ ⟨0, 0⟩ 1 ⟨⟨0, 0, 1⟩, true⟩).camera.x = 50
    ∧ focusEffectStep ⟨500, 500⟩ ⟨0, 0⟩ 1 ⟨⟨0, 0, 1⟩, true⟩ ≠ ⟨⟨0, 0, 1⟩, true⟩ := by
  have ht : targetCamera ⟨500, 500⟩ ⟨0, 0⟩ 1 = ⟨500, 500⟩ := by
    simp only [targetCamera, Point2.mk.injEq]
    norm_num
  have h1 : (focusEffectStep ⟨500, 500⟩ ⟨0, 0⟩ 1 ⟨⟨0, 0, 1⟩, true⟩).camera.x = 50 := by
    rw [focusEffectStep, ht,
      animate_lerp _ _ rfl (sqrt_not_lt_threshold (by norm_num))]
    norm_num [LERP_FACTOR]
  refine ⟨h1, fun heq => ?_⟩
  have := congrArg (fun st => st.camera.x) heq
  simp only at this
  rw [h1] at this
  norm_num at this

/-- C9 amended: with a zero-size viewport rect the animation frame still
runs; no division by zero occurs (the only divisor in the target
computation is the camera zoom, and `0 / 2 / zoom = 0` regardless), the
degenerate centering target is the focus point itself, and the frame
behaves exactly like a frame whose target is the focus point — moving the
camera toward placing the focus point at the viewport's top-left corner
rather than skipping. -/
theorem degenerate_viewport_tick_behavior (focus : Point2) (setupZoom : ℝ)
    (s : AnimState) :
    targetCamera focus ⟨0, 0⟩ setupZoom = focus
    ∧ focusEffectStep focus ⟨0, 0⟩ setupZoom s = animate focus s := by
  have ht : targetCamera focus ⟨0, 0⟩ setupZoom = focus := by
    cases focus
    simp [targetCamera]
  exact ⟨ht, by rw [focusEffectStep, ht]⟩

end
